import Mathlib

/-!
Verification of the grayscale conversion tools
(`grayscale_tool.py`, `grayscale_adjust_tool.py`,
`grayscale_adjust_preview_tool.py`).

The three scripts share their path utilities, target collection,
output-path allocation and adjustment pipeline almost verbatim; the
shared logic is embedded once below.  Filesystem queries (`os.path.isdir`,
`os.path.isfile`, `os.walk`, `os.path.normpath`/`abspath`, `Image.open`)
are environment effects and are modelled as an explicit `Env` record;
the set of existing output files is modelled as an explicit list that the
conversion functions thread through.  Python `float` arithmetic on the
configuration values is modelled with `ℚ` (the comparisons the code makes
are exact), and the transcendental `**` of the gamma lookup table with
`ℝ` (`Real.rpow`).
-/

namespace GrayTool

/-- The recognized image extensions, from `IMAGE_EXTS` (identical in all
three scripts). -/
def IMAGE_EXTS : List String := [".jpg", ".jpeg", ".png", ".tif", ".tiff", ".bmp", ".gif"]

/-- CPython `str.rfind` for a single character: highest index holding `c`,
or `-1` when absent. -/
def rfind (c : Char) (l : List Char) : Int :=
  match l.reverse.findIdx? (· = c) with
  | some k => ((l.length - 1 - k : Nat) : Int)
  | none => -1

/-- CPython `ntpath.splitext` (via `genericpath._splitext` with separator
`\`, alternate separator `/` and extension separator `.`): the extension
starts at the last dot, provided that dot lies after the last path
separator and some character strictly between them is not a dot. -/
def splitextList (l : List Char) : List Char × List Char :=
  let sepIndex : Int := max (rfind '\\' l) (rfind '/' l)
  let dotIndex : Int := rfind '.' l
  let hasStem : Bool := (List.range l.length).any fun j =>
    decide (sepIndex < (j : Int)) && decide ((j : Int) < dotIndex) &&
      decide (l.getD j '.' ≠ '.')
  if decide (sepIndex < dotIndex) && hasStem then
    (l.take dotIndex.toNat, l.drop dotIndex.toNat)
  else (l, [])

/-- `os.path.splitext` on strings. -/
def splitext (s : String) : String × String :=
  let p := splitextList s.data
  (String.mk p.1, String.mk p.2)

/-- Python `str.lower`, restricted to ASCII case mapping (the extensions
compared against are ASCII). -/
def lowerString (s : String) : String :=
  String.mk (s.data.map Char.toLower)

/-- `is_image_file` from the scripts:
`os.path.splitext(path)[1].lower() in IMAGE_EXTS`. -/
def is_image_file (path : String) : Bool :=
  IMAGE_EXTS.contains (lowerString (splitext path).2)

/-- `os.path.basename`: everything after the last path separator. -/
def basename (s : String) : String :=
  String.mk (s.data.drop ((max (rfind '\\' s.data) (rfind '/' s.data) + 1).toNat))

/-- `os.path.join dir name` in the common case the scripts use (a
directory joined with a plain file name). -/
def pjoin (a b : String) : String := a ++ "\\" ++ b

/-- Decimal rendering of a natural number, as the Python f-string
`f"...-{n}..."` produces. -/
def natToDec (n : Nat) : String :=
  if n = 0 then "0" else String.mk (((Nat.digits 10 n).reverse.map Nat.digitChar))

/-- The fixed output directory of `grayscale_adjust_tool.py` and
`grayscale_adjust_preview_tool.py`: `Desktop\outputfolder`.  Modelled
with a fixed user-home prefix; the actual prefix comes from
`os.path.expanduser("~")` and is irrelevant to the claims. -/
def OUTPUT_DIR : String := "C:\\Users\\user\\Desktop\\outputfolder"

/-- The fixed output directory of `grayscale_tool.py`:
`Desktop\grayscale_output`. -/
def OUTPUT_DIR_GRAY : String := "C:\\Users\\user\\Desktop\\grayscale_output"

/-- First destination candidate of `safe_out_path`:
`os.path.join(OUTPUT_DIR, f"{name}{suffix}{ext}")`. -/
def outBase (dir name suffix ext : String) : String :=
  pjoin dir (name ++ suffix ++ ext)

/-- Collision candidate of `safe_out_path`:
`os.path.join(OUTPUT_DIR, f"{name}{suffix}-{n}{ext}")`. -/
def outCandidate (dir name suffix ext : String) (n : Nat) : String :=
  pjoin dir (name ++ suffix ++ "-" ++ natToDec n ++ ext)

/-- The `while os.path.exists(dst)` loop of `safe_out_path`, over an
explicit list `fs` of existing paths.  The loop of the script is
unbounded; here it carries fuel, and `safe_out_path` passes enough fuel
for the loop to reach a free name (proved in `safe_out_path_never_collides`). -/
def safeLoop (fs : List String) (dir name suffix ext : String) :
    Nat → Nat → String → String
  | 0, _, dst => dst
  | fuel + 1, n, dst =>
    if fs.contains dst then
      safeLoop fs dir name suffix ext fuel (n + 1) (outCandidate dir name suffix ext n)
    else dst

/-- `safe_out_path` from `grayscale_adjust_preview_tool.py` (the two
other scripts are the same with `suffix` fixed to `"_adj"` resp.
`"_gray"` and `dir` fixed to their output directory). -/
def safe_out_path (fs : List String) (filename suffix dir : String) : String :=
  safeLoop fs dir (splitext filename).1 suffix (splitext filename).2
    (fs.length + 1) 2
    (outBase dir (splitext filename).1 suffix (splitext filename).2)

/-- `safe_out_path` of `grayscale_adjust_tool.py`. -/
def safe_out_path_adj (fs : List String) (filename : String) : String :=
  safe_out_path fs filename "_adj" OUTPUT_DIR

/-- `safe_out_path` of `grayscale_tool.py`. -/
def safe_out_path_gray (fs : List String) (filename : String) : String :=
  safe_out_path fs filename "_gray" OUTPUT_DIR_GRAY

/-- The filesystem queries the scripts perform, as an explicit
environment: `os.path.isdir`, `os.path.isfile`, `os.walk` (a list of
`(root, files)` pairs; the intermediate `dirs` component is unused by the
scripts), and `norm = os.path.normpath(os.path.abspath(·))`. -/
structure Env where
  isdir : String → Bool
  isfile : String → Bool
  walk : String → List (String × List String)
  norm : String → String

/-- Body of the inner loops of `collect_targets`:
`if is_image_file(fp) and fp not in seen: seen.add(fp); paths.append(fp)`. -/
def addIfNew (sp : List String × List String) (fp : String) : List String × List String :=
  if is_image_file fp && !sp.1.contains fp then (fp :: sp.1, sp.2 ++ [fp]) else sp

/-- The loop of `collect_targets` over the input paths, threading the
`seen` set (first component) and the `paths` accumulator (second
component). -/
def collectLoop (env : Env) : List String → List String × List String → List String × List String
  | [], sp => sp
  | p :: rest, sp =>
    if p = "" then collectLoop env rest sp
    else if env.isdir (env.norm p) then
      collectLoop env rest
        (((env.walk (env.norm p)).flatMap fun rd =>
          rd.2.map fun fn => env.norm (pjoin rd.1 fn)).foldl addIfNew sp)
    else if env.isfile (env.norm p) && is_image_file (env.norm p) then
      collectLoop env rest (addIfNew sp (env.norm p))
    else collectLoop env rest sp

/-- `collect_targets` (identical in all three scripts): gather image
files from the inputs, deduplicating by normalized absolute path, then
`paths.sort()` (Python's stable sort on distinct string keys, modelled by
insertion sort). -/
def collect_targets (env : Env) (inputs : List String) : List String :=
  List.insertionSort (· ≤ ·) (collectLoop env inputs ([], [])).2

/-- Invariant of the `collect_targets` loop: the accumulated paths are
pairwise distinct, all recorded in `seen`, and all recognized images. -/
def CollectInv (sp : List String × List String) : Prop :=
  sp.2.Nodup ∧ (∀ x ∈ sp.2, x ∈ sp.1) ∧ ∀ x ∈ sp.2, is_image_file x = true

theorem addIfNew_inv (sp : List String × List String) (fp : String)
    (h : CollectInv sp) : CollectInv (addIfNew sp fp) := by
  obtain ⟨hnd, hseen, himg⟩ := h
  unfold addIfNew
  split
  · next hc =>
    simp only [Bool.and_eq_true, Bool.not_eq_true'] at hc
    have hnotseen : fp ∉ sp.1 := by simpa using hc.2
    refine ⟨?_, ?_, ?_⟩
    · simp only [List.nodup_append, List.nodup_cons, List.nodup_nil]
      exact ⟨hnd, by simp, by simpa using fun hfp => hnotseen (hseen fp hfp)⟩
    · intro x hx
      rcases List.mem_append.1 hx with hx | hx
      · exact List.mem_cons_of_mem _ (hseen x hx)
      · simp only [List.mem_singleton] at hx
        subst hx; exact List.mem_cons_self _ _
    · intro x hx
      rcases List.mem_append.1 hx with hx | hx
      · exact himg x hx
      · simp only [List.mem_singleton] at hx
        subst hx; exact hc.1
  · exact ⟨hnd, hseen, himg⟩

theorem foldl_addIfNew_inv (fps : List String) (sp : List String × List String)
    (h : CollectInv sp) : CollectInv (fps.foldl addIfNew sp) := by
  induction fps generalizing sp with
  | nil => exact h
  | cons fp fps ih => exact ih _ (addIfNew_inv sp fp h)

theorem collectLoop_inv (env : Env) (inputs : List String)
    (sp : List String × List String) (h : CollectInv sp) :
    CollectInv (collectLoop env inputs sp) := by
  induction inputs generalizing sp with
  | nil => exact h
  | cons p rest ih =>
    unfold collectLoop
    split
    · exact ih sp h
    · split
      · exact ih _ (foldl_addIfNew_inv _ sp h)
      · split
        · exact ih _ (addIfNew_inv sp _ h)
        · exact ih sp h

end GrayTool

namespace GrayTool

/-- C7: for every list of input paths, `collect_targets` returns a list
that is sorted lexicographically, contains no duplicates (its members are
the already-normalized paths, so they are distinct after normalization),
and contains only paths whose (case-insensitive) extension is one of
jpg, jpeg, png, tif, tiff, bmp, gif. -/
theorem collect_targets_sorted_nodup_image_only (env : Env) (inputs : List String) :
    (collect_targets env inputs).Sorted (· ≤ ·) ∧
    (collect_targets env inputs).Nodup ∧
    ∀ x ∈ collect_targets env inputs, is_image_file x = true := by
  have h := collectLoop_inv env inputs ([], [])
    ⟨List.nodup_nil, by simp, by simp⟩
  refine ⟨List.sorted_insertionSort _ _, ?_, ?_⟩
  · exact ((List.perm_insertionSort _ _).nodup_iff).2 h.1
  · intro x hx
    exact h.2.2 x ((List.perm_insertionSort _ _).mem_iff.1 hx)

/-- C10: the extension test of target collection is case-insensitive:
`is_image_file` lower-cases the extension before the membership test, so
`photo.JPG` and `photo.Png` are accepted even though `.JPG` and `.Png`
are not literally in `IMAGE_EXTS`, `photo.TXT` is still rejected, and in
general a path is accepted exactly when its lower-cased extension is in
the recognized set. -/
theorem is_image_file_case_insensitive :
    is_image_file "photo.JPG" = true ∧
    IMAGE_EXTS.contains ".JPG" = false ∧
    is_image_file "photo.Png" = true ∧
    IMAGE_EXTS.contains ".Png" = false ∧
    is_image_file "photo.TXT" = false ∧
    ∀ p : String, is_image_file p = IMAGE_EXTS.contains (lowerString (splitext p).2) :=
  ⟨by decide, by decide, by decide, by decide, by decide, fun _ => rfl⟩

end GrayTool

namespace GrayTool

theorem digitChar_inj_lt : ∀ a < 10, ∀ b < 10, Nat.digitChar a = Nat.digitChar b → a = b := by
  decide

theorem map_digitChar_inj : ∀ {l1 l2 : List Nat}, (∀ d ∈ l1, d < 10) → (∀ d ∈ l2, d < 10) →
    l1.map Nat.digitChar = l2.map Nat.digitChar → l1 = l2 := by
  intro l1
  induction l1 with
  | nil => intro l2 _ _ h; cases l2 <;> simp_all
  | cons a l ih =>
    intro l2 h1 h2 h
    cases l2 with
    | nil => simp_all
    | cons b t =>
      simp only [List.map_cons, List.cons.injEq] at h
      have hab := digitChar_inj_lt a (h1 a (by simp)) b (h2 b (by simp)) h.1
      subst hab
      have := ih (fun d hd => h1 d (List.mem_cons_of_mem _ hd))
        (fun d hd => h2 d (List.mem_cons_of_mem _ hd)) h.2
      simp [this]

theorem string_mk_inj {a b : List Char} (h : String.mk a = String.mk b) : a = b := by
  injection h

theorem natToDec_injective : Function.Injective natToDec := by
  intro n m h
  unfold natToDec at h
  split at h <;> split at h
  · omega
  · exfalso
    next hm =>
    have hdata : ['0'] = (Nat.digits 10 m).reverse.map Nat.digitChar := congrArg String.data h
    have h0 : ([0] : List ℕ).map Nat.digitChar = (Nat.digits 10 m).reverse.map Nat.digitChar := by
      simpa using hdata
    have hlist : ([0] : List ℕ) = (Nat.digits 10 m).reverse := by
      refine map_digitChar_inj (by simp) ?_ h0
      intro d hd
      exact Nat.digits_lt_base (by norm_num) (List.mem_reverse.1 hd)
    have hdig : Nat.digits 10 m = [0] := by
      have := congrArg List.reverse hlist
      simpa using this.symm
    have := Nat.getLast_digit_ne_zero 10 hm
    simp [hdig] at this
  · exfalso
    next hn _ =>
    have hdata : (Nat.digits 10 n).reverse.map Nat.digitChar = ['0'] := congrArg String.data h
    have h0 : (Nat.digits 10 n).reverse.map Nat.digitChar = ([0] : List ℕ).map Nat.digitChar := by
      simpa using hdata
    have hlist : (Nat.digits 10 n).reverse = ([0] : List ℕ) := by
      refine map_digitChar_inj ?_ (by simp) h0
      intro d hd
      exact Nat.digits_lt_base (by norm_num) (List.mem_reverse.1 hd)
    have hdig : Nat.digits 10 n = [0] := by
      have := congrArg List.reverse hlist
      simpa using this
    have := Nat.getLast_digit_ne_zero 10 hn
    simp [hdig] at this
  · next hn hm =>
    have hdata := string_mk_inj h
    have hlist := map_digitChar_inj
      (fun d hd => Nat.digits_lt_base (by norm_num) (List.mem_reverse.1 hd))
      (fun d hd => Nat.digits_lt_base (by norm_num) (List.mem_reverse.1 hd)) hdata
    exact Nat.digits_inj_iff.1 (List.reverse_injective hlist)

end GrayTool
namespace GrayTool

theorem string_data_inj {a b : String} (h : a.data = b.data) : a = b := by
  cases a; cases b; exact congrArg String.mk h

theorem append_peel5 (a b c d e E : List Char) {x y : List Char}
    (h : a ++ (b ++ (c ++ (d ++ (e ++ (x ++ E))))) =
         a ++ (b ++ (c ++ (d ++ (e ++ (y ++ E)))))) : x = y := by
  have h1 := List.append_right_injective a h
  have h2 := List.append_right_injective b h1
  have h3 := List.append_right_injective c h2
  have h4 := List.append_right_injective d h3
  have h5 := List.append_right_injective e h4
  exact List.append_left_injective E h5

theorem outCandidate_injective (dir name suffix ext : String) :
    Function.Injective (outCandidate dir name suffix ext) := by
  intro i j h
  apply natToDec_injective
  apply string_data_inj
  have hd := congrArg String.data h
  simp only [outCandidate, pjoin, String.data_append, List.append_assoc] at hd
  exact append_peel5 _ _ _ _ _ _ hd

theorem outBase_ne_outCandidate (dir name suffix ext : String) (n : Nat) :
    outBase dir name suffix ext ≠ outCandidate dir name suffix ext n := by
  intro h
  have hd := congrArg (fun s => s.data.length) h
  simp only [outBase, outCandidate, pjoin, String.data_append, List.length_append,
    List.length_cons, List.length_nil] at hd
  omega

end GrayTool
namespace GrayTool

/-- The sequence of destination candidates `safe_out_path` tries from a
loop state: the current `dst`, then the numbered candidates from `n` on. -/
def candSeq (dir name suffix ext : String) (n : Nat) (dst : String) : Nat → String
  | 0 => dst
  | k + 1 => outCandidate dir name suffix ext (n + k)

theorem candSeq_shift (dir name suffix ext : String) (n : Nat) (dst : String) (k : Nat) :
    candSeq dir name suffix ext (n + 1) (outCandidate dir name suffix ext n) k =
    candSeq dir name suffix ext n dst (k + 1) := by
  cases k with
  | zero => simp [candSeq]
  | succ k => simp [candSeq, Nat.add_assoc, Nat.add_comm 1 k]

theorem safeLoop_finds (fs : List String) (dir name suffix ext : String) :
    ∀ (fuel n : Nat) (dst : String),
      (∃ k, k < fuel ∧ candSeq dir name suffix ext n dst k ∉ fs) →
      ∃ k, safeLoop fs dir name suffix ext fuel n dst = candSeq dir name suffix ext n dst k ∧
        candSeq dir name suffix ext n dst k ∉ fs ∧
        ∀ j, j < k → candSeq dir name suffix ext n dst j ∈ fs := by
  intro fuel
  induction fuel with
  | zero =>
    intro n dst h
    exact absurd h (by simp)
  | succ fuel ih =>
    intro n dst h
    by_cases hdst : fs.contains dst
    · have hmem : dst ∈ fs := by simpa using hdst
      have hex : ∃ k, k < fuel ∧
          candSeq dir name suffix ext (n + 1) (outCandidate dir name suffix ext n) k ∉ fs := by
        obtain ⟨k, hk, hfree⟩ := h
        cases k with
        | zero => exact absurd hmem (by simpa [candSeq] using hfree)
        | succ k =>
          exact ⟨k, by omega, by rw [candSeq_shift dir name suffix ext n dst k]; exact hfree⟩
      obtain ⟨k, heq, hfree, hmin⟩ := ih (n + 1) (outCandidate dir name suffix ext n) hex
      refine ⟨k + 1, ?_, ?_, ?_⟩
      · rw [safeLoop, if_pos hdst, heq, candSeq_shift dir name suffix ext n dst k]
      · rw [← candSeq_shift dir name suffix ext n dst k]; exact hfree
      · intro j hj
        cases j with
        | zero => simpa [candSeq] using hmem
        | succ j =>
          rw [← candSeq_shift dir name suffix ext n dst j]
          exact hmin j (by omega)
    · refine ⟨0, ?_, ?_, by omega⟩
      · rw [safeLoop, if_neg hdst]
        simp [candSeq]
      · simpa [candSeq] using hdst

end GrayTool
namespace GrayTool

theorem candSeq_injective (dir name suffix ext : String) :
    Function.Injective (candSeq dir name suffix ext 2 (outBase dir name suffix ext)) := by
  intro i j h
  cases i with
  | zero =>
    cases j with
    | zero => rfl
    | succ j => exact absurd h (outBase_ne_outCandidate dir name suffix ext (2 + j))
  | succ i =>
    cases j with
    | zero => exact absurd h.symm (outBase_ne_outCandidate dir name suffix ext (2 + i))
    | succ j =>
      have := outCandidate_injective dir name suffix ext h
      omega

theorem exists_free_candidate (fs : List String) (dir name suffix ext : String) :
    ∃ k, k < fs.length + 1 ∧
      candSeq dir name suffix ext 2 (outBase dir name suffix ext) k ∉ fs := by
  by_contra hcon
  push_neg at hcon
  set f := candSeq dir name suffix ext 2 (outBase dir name suffix ext) with hf
  set l := (List.range (fs.length + 1)).map f with hl
  have hnd : l.Nodup := (List.nodup_range _).map (candSeq_injective dir name suffix ext)
  have hsub : l.toFinset ⊆ fs.toFinset := by
    intro x hx
    simp only [hl, List.mem_toFinset, List.mem_map, List.mem_range] at hx
    obtain ⟨k, hk, rfl⟩ := hx
    exact List.mem_toFinset.2 (hcon k hk)
  have h1 : l.toFinset.card = fs.length + 1 := by
    rw [List.toFinset_card_of_nodup hnd]
    simp [hl]
  have h2 := Finset.card_le_card hsub
  have h3 := fs.toFinset_card_le
  omega

end GrayTool
namespace GrayTool

/-- C3: `safe_out_path` returns a path that does not exist in the given
(finite) filesystem state; it is `<basename><suffix><ext>` in the output
directory when that path is free, otherwise `<basename><suffix>-n<ext>`
for the smallest free n ≥ 2 (every numbered candidate below n exists); in
particular, when only the base name exists, the `-2` name is allocated.
Termination of the script's unbounded `while` loop is reflected in the
sufficiency of the `fs.length + 1` fuel: the returned path is always
free. -/
theorem safe_out_path_never_collides (fs : List String) (filename suffix dir : String) :
    safe_out_path fs filename suffix dir ∉ fs ∧
    (outBase dir (splitext filename).1 suffix (splitext filename).2 ∉ fs →
      safe_out_path fs filename suffix dir =
        outBase dir (splitext filename).1 suffix (splitext filename).2) ∧
    (outBase dir (splitext filename).1 suffix (splitext filename).2 ∈ fs →
      ∃ n, 2 ≤ n ∧
        safe_out_path fs filename suffix dir =
          outCandidate dir (splitext filename).1 suffix (splitext filename).2 n ∧
        (∀ m, 2 ≤ m → m < n →
          outCandidate dir (splitext filename).1 suffix (splitext filename).2 m ∈ fs)) ∧
    (outBase dir (splitext filename).1 suffix (splitext filename).2 ∈ fs →
      outCandidate dir (splitext filename).1 suffix (splitext filename).2 2 ∉ fs →
      safe_out_path fs filename suffix dir =
        outCandidate dir (splitext filename).1 suffix (splitext filename).2 2) := by
  set name := (splitext filename).1 with hname
  set ext := (splitext filename).2 with hext
  set base := outBase dir name suffix ext with hbase
  obtain ⟨k, hk, hfree⟩ := exists_free_candidate fs dir name suffix ext
  obtain ⟨k', heq, hfree', hmin⟩ :=
    safeLoop_finds fs dir name suffix ext (fs.length + 1) 2 base ⟨k, hk, hfree⟩
  have hr : safe_out_path fs filename suffix dir = candSeq dir name suffix ext 2 base k' := by
    rw [safe_out_path]; exact heq
  have hcand : ∀ j, candSeq dir name suffix ext 2 base (j + 1) =
      outCandidate dir name suffix ext (2 + j) := fun j => rfl
  have hzero : candSeq dir name suffix ext 2 base 0 = base := rfl
  refine ⟨by rw [hr]; exact hfree', ?_, ?_, ?_⟩
  · intro hb
    cases k' with
    | zero => rw [hr, hzero]
    | succ j => exact absurd (by rw [← hzero] at hb; exact hb) (by exact fun h => hb (by simpa [hzero] using hmin 0 (by omega)))
  · intro hb
    cases k' with
    | zero => exact absurd (hzero ▸ hfree') (by simpa using hb)
    | succ j =>
      refine ⟨2 + j, by omega, by rw [hr, hcand], ?_⟩
      intro m hm2 hmj
      have h1 : m - 2 + 1 < j + 1 := by omega
      have := hmin (m - 2 + 1) h1
      rw [hcand] at this
      have hm : 2 + (m - 2) = m := by omega
      rwa [hm] at this
  · intro hb h2
    cases k' with
    | zero => exact absurd (hzero ▸ hfree') (by simpa using hb)
    | succ j =>
      cases j with
      | zero => rw [hr, hcand]
      | succ j =>
        exfalso
        have := hmin 1 (by omega)
        rw [hcand 0] at this
        exact h2 this

end GrayTool

namespace GrayTool

/-- A single-channel ("L" mode) image: its pixel bytes in raster order. -/
abbrev GrayImage := List Nat

/-- A decoded source image as `Image.open` yields it: its color mode,
its `is_animated` flag, and its per-pixel channel data. -/
structure SrcImage where
  mode : String
  animated : Bool
  pixels : List (List Nat)

/-- The adjustment configuration `cfg` of `grayscale_adjust_tool.py` and
`grayscale_adjust_preview_tool.py`.  The Python floats are modelled with
`ℚ`: every comparison the scripts make on them is exact. -/
structure Cfg where
  autocontrast : Bool
  cutoff : Nat
  brightness : ℚ
  contrast : ℚ
  gamma : ℚ

/-- `default_cfg` from `grayscale_adjust_tool.py`. -/
def default_cfg : Cfg :=
  { autocontrast := false, cutoff := 1, brightness := 1, contrast := 1, gamma := 1 }

/-- The `1e-6` tolerance of the identity tests. -/
def EPS : ℚ := 1 / 1000000

/-- The Pillow primitives the scripts call (`ImageOps.autocontrast`,
`ImageEnhance.Brightness(..).enhance`, `ImageEnhance.Contrast(..).enhance`,
`im.convert("RGB")`, `ImageOps.grayscale`).  Their pixel-level behavior
lives in the imaging library, not in this repository, so the pipeline is
verified for every implementation of them. -/
structure PrimOps where
  autocontrast : Nat → GrayImage → GrayImage
  brightness : ℚ → GrayImage → GrayImage
  contrast : ℚ → GrayImage → GrayImage
  convertRGB : SrcImage → SrcImage
  grayscale : SrcImage → GrayImage

/-- The denominator guard of the gamma step: `max(g, 1e-6)`. -/
def gammaDenom (g : ℚ) : ℚ := max g EPS

/-- The gamma lookup table:
`lut = [int(round((i / 255.0) ** inv * 255.0)) for i in range(256)]`
with `inv = 1.0 / max(g, 1e-6)`.  The transcendental float `**` is
modelled exactly on `ℝ` (`Real.rpow`); `round` is modelled by Mathlib's
`round` (the claims proved about the table do not depend on how ties at
`.5` are broken). -/
noncomputable def gammaLut (g : ℚ) : List ℤ :=
  (List.range 256).map fun (i : ℕ) =>
    round ((((i : ℝ) / 255) ^ ((1 : ℝ) / (gammaDenom g : ℝ))) * 255)

/-- `im.point(lut, mode="L")`: each pixel byte is replaced by its table
entry, clamped to the byte range. -/
def pointL (lut : List Int) (im : GrayImage) : GrayImage :=
  im.map fun p => (min (max (lut.getD p 0) 0) 255).toNat

/-- Step 1 of `apply_adjustments`: autocontrast, when enabled. -/
def autocontrastStep (P : PrimOps) (cfg : Cfg) (im : GrayImage) : GrayImage :=
  if cfg.autocontrast then P.autocontrast cfg.cutoff im else im

/-- Step 2 of `apply_adjustments`: brightness, skipped within `1e-6` of `1.0`. -/
def brightnessStep (P : PrimOps) (cfg : Cfg) (im : GrayImage) : GrayImage :=
  if |cfg.brightness - 1| > EPS then P.brightness cfg.brightness im else im

/-- Step 3 of `apply_adjustments`: contrast, skipped within `1e-6` of `1.0`. -/
def contrastStep (P : PrimOps) (cfg : Cfg) (im : GrayImage) : GrayImage :=
  if |cfg.contrast - 1| > EPS then P.contrast cfg.contrast im else im

/-- Step 4 of `apply_adjustments`: the gamma LUT, skipped within `1e-6`
of `1.0`. -/
noncomputable def gammaStep (cfg : Cfg) (im : GrayImage) : GrayImage :=
  if |cfg.gamma - 1| > EPS then pointL (gammaLut cfg.gamma) im else im

/-- `apply_adjustments` from `grayscale_adjust_tool.py`, with the nested
rebinding of `im` of the source. -/
noncomputable def apply_adjustments (P : PrimOps) (gray : GrayImage) (cfg : Cfg) : GrayImage :=
  let im := gray
  let im := if cfg.autocontrast then P.autocontrast cfg.cutoff im else im
  let im := if |cfg.brightness - 1| > EPS then P.brightness cfg.brightness im else im
  let im := if |cfg.contrast - 1| > EPS then P.contrast cfg.contrast im else im
  if |cfg.gamma - 1| > EPS then pointL (gammaLut cfg.gamma) im else im

/-- `apply_adjustments_L` from `grayscale_adjust_preview_tool.py`
(textually the same pipeline as `apply_adjustments`). -/
noncomputable def apply_adjustments_L (P : PrimOps) (gray : GrayImage) (cfg : Cfg) : GrayImage :=
  let im := gray
  let im := if cfg.autocontrast then P.autocontrast cfg.cutoff im else im
  let im := if |cfg.brightness - 1| > EPS then P.brightness cfg.brightness im else im
  let im := if |cfg.contrast - 1| > EPS then P.contrast cfg.contrast im else im
  if |cfg.gamma - 1| > EPS then pointL (gammaLut cfg.gamma) im else im

/-- Example implementations of the external Pillow primitives, used only
to instantiate the pipeline theorems at concrete inputs. -/
def modelPrims : PrimOps where
  autocontrast := fun _ im => im
  brightness := fun b im => im.map fun p => min 255 (round ((p : ℚ) * b)).toNat
  contrast := fun c im => im.map fun p => min 255 (round ((p : ℚ) * c)).toNat
  convertRGB := fun im => { im with mode := "RGB" }
  grayscale := fun im => im.pixels.map fun px => px.headD 0

end GrayTool

namespace GrayTool

/-- C1: with an identity configuration (autocontrast disabled,
brightness, contrast and gamma all within `1e-6` of `1.0`) the
adjustment pipeline of both `grayscale_adjust_tool.py` and
`grayscale_adjust_preview_tool.py` returns the input grayscale image
unchanged, whatever the imaging library's primitives do — so the overall
output equals plain grayscale conversion. -/
theorem apply_adjustments_identity_noop (P : PrimOps) (gray : GrayImage) (cfg : Cfg)
    (hac : cfg.autocontrast = false)
    (hb : |cfg.brightness - 1| ≤ EPS)
    (hc : |cfg.contrast - 1| ≤ EPS)
    (hg : |cfg.gamma - 1| ≤ EPS) :
    apply_adjustments P gray cfg = gray ∧ apply_adjustments_L P gray cfg = gray := by
  unfold apply_adjustments apply_adjustments_L
  simp [hac, not_lt.2 hb, not_lt.2 hc, not_lt.2 hg]

/-- Witness for `apply_adjustments_identity_noop`: the default
configuration on a concrete three-pixel image. -/
theorem apply_adjustments_identity_noop_witness :
    default_cfg.autocontrast = false ∧
    |default_cfg.brightness - 1| ≤ EPS ∧
    |default_cfg.contrast - 1| ≤ EPS ∧
    |default_cfg.gamma - 1| ≤ EPS ∧
    apply_adjustments modelPrims [0, 128, 255] default_cfg = [0, 128, 255] ∧
    apply_adjustments_L modelPrims [0, 128, 255] default_cfg = [0, 128, 255] :=
  ⟨rfl, by simp [default_cfg, EPS], by simp [default_cfg, EPS], by simp [default_cfg, EPS],
    (apply_adjustments_identity_noop modelPrims [0, 128, 255] default_cfg rfl
      (by simp [default_cfg, EPS]) (by simp [default_cfg, EPS]) (by simp [default_cfg, EPS])).1,
    (apply_adjustments_identity_noop modelPrims [0, 128, 255] default_cfg rfl
      (by simp [default_cfg, EPS]) (by simp [default_cfg, EPS]) (by simp [default_cfg, EPS])).2⟩

/-- C5: the pipeline is exactly the composition
autocontrast, then brightness, then contrast, then gamma — each later
step operating on the previous step's output — and each step is the
identity at its identity value (within `1e-6` for brightness, contrast
and gamma). -/
theorem apply_adjustments_order (P : PrimOps) (gray : GrayImage) (cfg : Cfg) :
    apply_adjustments P gray cfg =
      gammaStep cfg (contrastStep P cfg (brightnessStep P cfg (autocontrastStep P cfg gray))) ∧
    apply_adjustments_L P gray cfg =
      gammaStep cfg (contrastStep P cfg (brightnessStep P cfg (autocontrastStep P cfg gray))) ∧
    (cfg.autocontrast = false → autocontrastStep P cfg gray = gray) ∧
    (|cfg.brightness - 1| ≤ EPS → brightnessStep P cfg gray = gray) ∧
    (|cfg.contrast - 1| ≤ EPS → contrastStep P cfg gray = gray) ∧
    (|cfg.gamma - 1| ≤ EPS → gammaStep cfg gray = gray) := by
  refine ⟨rfl, rfl, ?_, ?_, ?_, ?_⟩
  · intro h; simp [autocontrastStep, h]
  · intro h; simp [brightnessStep, not_lt.2 h]
  · intro h; simp [contrastStep, not_lt.2 h]
  · intro h; simp [gammaStep, not_lt.2 h]

end GrayTool

namespace GrayTool

theorem round_mono_real {x y : ℝ} (h : x ≤ y) : round x ≤ round y := by
  rw [round_eq, round_eq]
  exact Int.floor_le_floor (by linarith)

theorem round_255 : round ((255 : ℝ)) = 255 := by
  rw [show ((255 : ℝ)) = ((255 : ℤ) : ℝ) by norm_num, round_intCast]

theorem gammaDenom_pos_real (g : ℚ) : (0 : ℝ) < (gammaDenom g : ℝ) := by
  have : (0 : ℚ) < gammaDenom g := lt_max_of_lt_right (by norm_num [EPS])
  exact_mod_cast this

theorem gammaLut_entry (g : ℚ) (i : Nat) (h : i < 256) :
    (gammaLut g).getD i 0 =
      round ((((i : ℝ) / 255) ^ ((1 : ℝ) / (gammaDenom g : ℝ))) * 255) := by
  unfold gammaLut
  rw [List.getD_eq_getElem?_getD, List.getElem?_map, List.getElem?_range h]
  simp

theorem gammaLut_value_bounds (g : ℚ) (i : Nat) (hi : i ≤ 255) :
    (0 : ℤ) ≤ round ((((i : ℝ) / 255) ^ ((1 : ℝ) / (gammaDenom g : ℝ))) * 255) ∧
    round ((((i : ℝ) / 255) ^ ((1 : ℝ) / (gammaDenom g : ℝ))) * 255) ≤ 255 := by
  have hd := gammaDenom_pos_real g
  have he : (0 : ℝ) ≤ (1 : ℝ) / (gammaDenom g : ℝ) := by positivity
  have hx0 : (0 : ℝ) ≤ (i : ℝ) / 255 := by positivity
  have hx1 : (i : ℝ) / 255 ≤ 1 := by
    rw [div_le_one (by norm_num)]
    exact_mod_cast hi
  have hp0 : (0 : ℝ) ≤ ((i : ℝ) / 255) ^ ((1 : ℝ) / (gammaDenom g : ℝ)) :=
    Real.rpow_nonneg hx0 _
  have hp1 : ((i : ℝ) / 255) ^ ((1 : ℝ) / (gammaDenom g : ℝ)) ≤ 1 :=
    Real.rpow_le_one hx0 hx1 he
  constructor
  · have := round_mono_real (mul_nonneg hp0 (by norm_num : (0:ℝ) ≤ 255))
    simpa using this
  · have hle : ((i : ℝ) / 255) ^ ((1 : ℝ) / (gammaDenom g : ℝ)) * 255 ≤ 255 := by
      nlinarith
    have := round_mono_real hle
    rwa [round_255] at this

theorem gammaLut_monotone_aux (g : ℚ) {i j : Nat} (hij : i ≤ j) :
    round ((((i : ℝ) / 255) ^ ((1 : ℝ) / (gammaDenom g : ℝ))) * 255) ≤
    round ((((j : ℝ) / 255) ^ ((1 : ℝ) / (gammaDenom g : ℝ))) * 255) := by
  have hd := gammaDenom_pos_real g
  have he : (0 : ℝ) ≤ (1 : ℝ) / (gammaDenom g : ℝ) := by positivity
  have hx0 : (0 : ℝ) ≤ (i : ℝ) / 255 := by positivity
  have hxy : (i : ℝ) / 255 ≤ (j : ℝ) / 255 := by
    gcongr
  have hp := Real.rpow_le_rpow hx0 hxy he
  exact round_mono_real (by nlinarith)

end GrayTool
namespace GrayTool

/-- C2: for every gamma in [0.7, 1.3] deviating from 1.0 by more than
1e-6, the gamma lookup table has entry `i = round((i/255)^(1/gamma)*255)`
(the `max(gamma, 1e-6)` guard reduces to gamma there), every entry lies
within [0, 255] (so the byte clamp of `Image.point` never needs to alter
it), and the entries are monotonically non-decreasing in i. -/
theorem gammaLut_formula_bounds_monotone (g : ℚ)
    (h1 : (7 : ℚ)/10 ≤ g) (_h2 : g ≤ (13 : ℚ)/10) (_h3 : EPS < |g - 1|) :
    (∀ i : ℕ, i < 256 → (gammaLut g).getD i 0 =
        round ((((i : ℝ) / 255) ^ ((1 : ℝ) / (g : ℝ))) * 255)) ∧
    (∀ e ∈ gammaLut g, 0 ≤ e ∧ e ≤ 255) ∧
    (∀ i j : ℕ, i ≤ j → j < 256 → (gammaLut g).getD i 0 ≤ (gammaLut g).getD j 0) := by
  have hden : gammaDenom g = g := max_eq_left (le_trans (by norm_num [EPS]) h1)
  refine ⟨?_, ?_, ?_⟩
  · intro i hi
    rw [gammaLut_entry g i hi, hden]
  · intro e he
    unfold gammaLut at he
    obtain ⟨i, hi, rfl⟩ := List.mem_map.1 he
    exact gammaLut_value_bounds g i (by
      have := List.mem_range.1 hi
      omega)
  · intro i j hij hj
    rw [gammaLut_entry g i (lt_of_le_of_lt hij hj), gammaLut_entry g j hj]
    exact gammaLut_monotone_aux g hij

/-- Witness for `gammaLut_formula_bounds_monotone` at gamma = 1.3. -/
theorem gammaLut_formula_bounds_monotone_witness :
    ((7 : ℚ)/10 ≤ 13/10) ∧ ((13 : ℚ)/10 ≤ 13/10) ∧ EPS < |(13/10 : ℚ) - 1| ∧
    ∀ e ∈ gammaLut (13/10), 0 ≤ e ∧ e ≤ 255 :=
  ⟨by norm_num, by norm_num, by rw [lt_abs]; norm_num [EPS],
   (gammaLut_formula_bounds_monotone (13/10) (by norm_num) (by norm_num)
     (by rw [lt_abs]; norm_num [EPS])).2.1⟩

/-- C9: for every gamma — including 0 and negative values — the
denominator `max(gamma, 1e-6)` the gamma step divides by is at least
1e-6, hence nonzero, so building the lookup table never divides by zero
and the pipeline is total in the gamma parameter. -/
theorem gammaDenom_never_zero (g : ℚ) :
    EPS ≤ gammaDenom g ∧ gammaDenom g ≠ 0 ∧ gammaDenom 0 = EPS ∧ gammaDenom (-1) = EPS ∧
    ∀ i : ℕ, i < 256 → (gammaLut g).getD i 0 =
      round ((((i : ℝ) / 255) ^ ((1 : ℝ) / (gammaDenom g : ℝ))) * 255) := by
  refine ⟨le_max_right _ _, ?_, ?_, ?_, fun i hi => gammaLut_entry g i hi⟩
  · have : (0 : ℚ) < gammaDenom g := lt_max_of_lt_right (by norm_num [EPS])
    exact ne_of_gt this
  · exact max_eq_right (by norm_num [EPS])
  · exact max_eq_right (by norm_num [EPS])

end GrayTool
namespace GrayTool

/-- Result of `Image.open(src)`: a decoded image, an
`UnidentifiedImageError`, or any other exception with its message. -/
inductive OpenResult where
  | ok (im : SrcImage)
  | unidentified
  | err (msg : String)

/-- `to_gray_L` of `grayscale_adjust_preview_tool.py`, and the identical
inline mode-handling of the two other scripts: non-L/LA images are first
converted to RGB, then `ImageOps.grayscale` is applied. -/
def to_gray_L (P : PrimOps) (im : SrcImage) : GrayImage :=
  P.grayscale (if im.mode = "L" || im.mode = "LA" then im else P.convertRGB im)

/-- `convert_one` of `grayscale_adjust_tool.py`.  The filesystem is the
explicit list `fs` of already-written files with their contents; a
successful conversion returns the extended filesystem, `True` and the
destination path, a failure returns the unchanged filesystem, `False`
and the skip reason (the scripts' Japanese messages kept verbatim). -/
noncomputable def convert_one (P : PrimOps) (openImage : String → OpenResult)
    (fs : List (String × GrayImage)) (src : String) (cfg : Cfg) :
    List (String × GrayImage) × Bool × String :=
  match openImage src with
  | .unidentified => (fs, false, "不正な画像/未対応の形式")
  | .err e => (fs, false, "失敗: " ++ e)
  | .ok im =>
    if im.animated then (fs, false, "アニメGIFのためスキップ")
    else
      let out := apply_adjustments P (to_gray_L P im) cfg
      let dst := safe_out_path_adj (fs.map Prod.fst) (basename src)
      ((dst, out) :: fs, true, dst)

/-- `convert_to_gray` of `grayscale_tool.py`: plain grayscale
conversion, no adjustments. -/
def convert_to_gray (P : PrimOps) (openImage : String → OpenResult)
    (fs : List (String × GrayImage)) (src : String) :
    List (String × GrayImage) × Bool × String :=
  match openImage src with
  | .unidentified => (fs, false, "不正な画像/未対応の形式")
  | .err e => (fs, false, "失敗: " ++ e)
  | .ok im =>
    if im.animated then (fs, false, "アニメGIFのためスキップ")
    else
      let gray := to_gray_L P im
      let dst := safe_out_path_gray (fs.map Prod.fst) (basename src)
      ((dst, gray) :: fs, true, dst)

/-- `convert_fullres` of `grayscale_adjust_preview_tool.py`. -/
noncomputable def convert_fullres (P : PrimOps) (openImage : String → OpenResult)
    (fs : List (String × GrayImage)) (src : String) (cfg : Cfg) :
    List (String × GrayImage) × Bool × String :=
  match openImage src with
  | .unidentified => (fs, false, "不正な画像/未対応の形式")
  | .err e => (fs, false, "失敗: " ++ e)
  | .ok im =>
    if im.animated then (fs, false, "アニメGIFのためスキップ")
    else
      let out := apply_adjustments_L P (to_gray_L P im) cfg
      let dst := safe_out_path (fs.map Prod.fst) (basename src) "_adj" OUTPUT_DIR
      ((dst, out) :: fs, true, dst)

end GrayTool
namespace GrayTool

/-- C4: an input whose `is_animated` flag is set is rejected by all
three per-file converters with the skip reason of the scripts, and the
filesystem is returned unchanged — no output file is written and the
image is never partially processed. -/
theorem animated_always_skipped_never_written (P : PrimOps)
    (openImage : String → OpenResult) (fs : List (String × GrayImage))
    (src : String) (cfg : Cfg) (im : SrcImage)
    (hopen : openImage src = OpenResult.ok im) (hanim : im.animated = true) :
    convert_one P openImage fs src cfg = (fs, false, "アニメGIFのためスキップ") ∧
    convert_to_gray P openImage fs src = (fs, false, "アニメGIFのためスキップ") ∧
    convert_fullres P openImage fs src cfg = (fs, false, "アニメGIFのためスキップ") := by
  unfold convert_one convert_to_gray convert_fullres
  rw [hopen]
  simp [hanim]

/-- A concrete animated source image. -/
def animGif : SrcImage := { mode := "P", animated := true, pixels := [] }

/-- Witness for `animated_always_skipped_never_written` on a concrete
animated image over an empty filesystem. -/
theorem animated_always_skipped_never_written_witness :
    (fun _ : String => OpenResult.ok animGif) "anim.gif" = OpenResult.ok animGif ∧
    animGif.animated = true ∧
    convert_to_gray modelPrims (fun _ => OpenResult.ok animGif) [] "anim.gif" =
      ([], false, "アニメGIFのためスキップ") :=
  ⟨rfl, rfl,
    (animated_always_skipped_never_written modelPrims (fun _ => OpenResult.ok animGif)
      [] "anim.gif" default_cfg animGif rfl rfl).2.1⟩

end GrayTool
namespace GrayTool

/-- Outcome of a batch run: the final filesystem, the `ok` and `skip`
counters, and one `(result, info)` log entry per processed file, in
processing order (the scripts print these as `[i/total] OK|SKIP` lines). -/
structure BatchResult where
  fs : List (String × GrayImage)
  ok : Nat
  skip : Nat
  logs : List (Bool × String)

/-- `process_targets` of `grayscale_adjust_tool.py`: convert each target
in order with `convert_one`, counting successes and skips. -/
noncomputable def process_targets (P : PrimOps) (openImage : String → OpenResult)
    (cfg : Cfg) : List (String × GrayImage) → List String → BatchResult
  | fs, [] => { fs := fs, ok := 0, skip := 0, logs := [] }
  | fs, p :: rest =>
    match convert_one P openImage fs p cfg with
    | (fs2, res, info) =>
      let r := process_targets P openImage cfg fs2 rest
      { fs := r.fs, ok := (if res then 1 else 0) + r.ok,
        skip := (if res then 0 else 1) + r.skip,
        logs := (res, info) :: r.logs }

/-- `process_targets` of `grayscale_tool.py` (no adjustment config,
per-file conversion is `convert_to_gray`). -/
def process_targets_gray (P : PrimOps) (openImage : String → OpenResult) :
    List (String × GrayImage) → List String → BatchResult
  | fs, [] => { fs := fs, ok := 0, skip := 0, logs := [] }
  | fs, p :: rest =>
    match convert_to_gray P openImage fs p with
    | (fs2, res, info) =>
      let r := process_targets_gray P openImage fs2 rest
      { fs := r.fs, ok := (if res then 1 else 0) + r.ok,
        skip := (if res then 0 else 1) + r.skip,
        logs := (res, info) :: r.logs }

theorem process_targets_counts_aux (P : PrimOps) (openImage : String → OpenResult)
    (cfg : Cfg) (targets : List String) :
    ∀ fs, (process_targets P openImage cfg fs targets).ok +
        (process_targets P openImage cfg fs targets).skip = targets.length ∧
      (process_targets P openImage cfg fs targets).logs.length = targets.length ∧
      (process_targets P openImage cfg fs targets).ok =
        (process_targets P openImage cfg fs targets).logs.countP (fun e => e.1) := by
  induction targets with
  | nil => intro fs; simp [process_targets]
  | cons p rest ih =>
    intro fs
    rcases hco : convert_one P openImage fs p cfg with ⟨fs2, res, info⟩
    have hrest := ih fs2
    unfold process_targets
    rw [hco]
    cases res <;> simp [List.countP_cons] <;> omega

end GrayTool
namespace GrayTool

theorem process_targets_gray_counts_aux (P : PrimOps) (openImage : String → OpenResult)
    (targets : List String) :
    ∀ fs, (process_targets_gray P openImage fs targets).ok +
        (process_targets_gray P openImage fs targets).skip = targets.length ∧
      (process_targets_gray P openImage fs targets).logs.length = targets.length ∧
      (process_targets_gray P openImage fs targets).ok =
        (process_targets_gray P openImage fs targets).logs.countP (fun e => e.1) := by
  induction targets with
  | nil => intro fs; simp [process_targets_gray]
  | cons p rest ih =>
    intro fs
    rcases hco : convert_to_gray P openImage fs p with ⟨fs2, res, info⟩
    have hrest := ih fs2
    unfold process_targets_gray
    rw [hco]
    cases res <;> simp [List.countP_cons] <;> omega

end GrayTool
namespace GrayTool

/-- C6: both batch drivers process each target in order and to the end —
one log entry per target, every per-file failure becoming a skip entry
rather than aborting the batch — and the final counts satisfy
ok + skip = total (with ok counting exactly the successful log entries). -/
theorem process_targets_never_aborts_counts (P : PrimOps)
    (openImage : String → OpenResult) (cfg : Cfg)
    (fs : List (String × GrayImage)) (targets : List String) :
    ((process_targets P openImage cfg fs targets).ok +
      (process_targets P openImage cfg fs targets).skip = targets.length ∧
    (process_targets P openImage cfg fs targets).logs.length = targets.length ∧
    (process_targets P openImage cfg fs targets).ok =
      (process_targets P openImage cfg fs targets).logs.countP (fun e => e.1)) ∧
    ((process_targets_gray P openImage fs targets).ok +
      (process_targets_gray P openImage fs targets).skip = targets.length ∧
    (process_targets_gray P openImage fs targets).logs.length = targets.length ∧
    (process_targets_gray P openImage fs targets).ok =
      (process_targets_gray P openImage fs targets).logs.countP (fun e => e.1)) :=
  ⟨process_targets_counts_aux P openImage cfg targets fs,
   process_targets_gray_counts_aux P openImage targets fs⟩

end GrayTool
namespace GrayTool

/-- Which top-level path an invocation takes: the Tkinter GUI, or the
CLI batch over a list of collected targets.  The GUI itself is UI glue
and out of scope; only the dispatch is modelled. -/
inductive RunMode where
  | gui
  | cli (targets : List String)
  deriving DecidableEq

/-- Whether a `RunMode` is the CLI batch path. -/
def RunMode.isCli : RunMode → Bool
  | .gui => false
  | .cli _ => true

/-- `run_cli(argv)` of `grayscale_tool.py` and `grayscale_adjust_tool.py`:
collect targets from the arguments; an empty list launches the GUI,
otherwise the batch runs over the targets. -/
def run_cli (env : Env) (argv : List String) : RunMode :=
  if (collect_targets env argv).isEmpty then .gui
  else .cli (collect_targets env argv)

/-- `main(argv)` of `grayscale_adjust_preview_tool.py`: it constructs
`App()` and runs its main loop — the `argv` parameter is never consulted
and there is no CLI batch path in this script. -/
def preview_main (_argv : List String) : RunMode := .gui

/-- A concrete environment with a single recognized image file. -/
def envJpg : Env :=
  { isdir := fun _ => false
    isfile := fun p => p = "C:\\pic.jpg"
    walk := fun _ => []
    norm := id }

/-- C8 counterexample: invoked with a path argument that collects to a
nonempty target list, `grayscale_adjust_preview_tool.py`'s entry point
still launches the GUI — it does not run a CLI batch, unlike the two
other scripts on the same input. -/
theorem preview_main_ignores_arguments :
    collect_targets envJpg ["C:\\pic.jpg"] = ["C:\\pic.jpg"] ∧
    run_cli envJpg ["C:\\pic.jpg"] = RunMode.cli ["C:\\pic.jpg"] ∧
    preview_main ["C:\\pic.jpg"] = RunMode.gui ∧
    (preview_main ["C:\\pic.jpg"]).isCli = false :=
  ⟨rfl, rfl, rfl, rfl⟩

/-- C8 amended: `grayscale_tool.py` and `grayscale_adjust_tool.py`
dispatch between the CLI batch (when the arguments collect to a nonempty
target list) and the GUI (when no targets are collected, in particular
with no arguments); `grayscale_adjust_preview_tool.py` launches the GUI
regardless of its arguments — it ships no CLI batch path. -/
theorem run_cli_dispatch (env : Env) (argv : List String) :
    (collect_targets env argv = [] → run_cli env argv = RunMode.gui) ∧
    (collect_targets env argv ≠ [] →
      run_cli env argv = RunMode.cli (collect_targets env argv)) ∧
    preview_main argv = RunMode.gui := by
  refine ⟨?_, ?_, rfl⟩
  · intro h; simp [run_cli, h]
  · intro h; simp [run_cli, List.isEmpty_iff, h]

end GrayTool
